import Mathlib

/-!
Verification of the Excelinator reconciliation engine (`src/app.py`).

The development shallowly embeds the core of the program: the Column Namer
(`avoid_similar_columns`), the Matcher (`mark_matches`), the Merger
(`merge_datasets` built on pandas `pd.merge` with `how="left"`), the reader
kwargs selection (`get_read_kwargs`), and the chunked/whole orchestration of
`main`.  Datasets are pandas DataFrames, modelled as an ordered list of column
labels together with a list of rows, each row an ordered list of scalar cells.
Fatal `SystemExit` aborts (and the cases where pandas itself raises) are
modelled with `Except`.
-/

namespace Excelinator

/-- A scalar cell of a dataset: a string, a number, or a missing value (NaN).
Pandas `isin`/`==`/`merge` compare cells by value; missing cells compare equal
to missing cells in this model. -/
inductive Value where
  | str (s : String)
  | num (n : Int)
  | null
deriving DecidableEq, Repr

/-- A pandas DataFrame: an ordered list of column labels and an ordered list of
rows.  A well-formed frame (`DataFrame.Wf`) has every row exactly as long as
the column list; pandas guarantees this for every frame the program builds. -/
structure DataFrame where
  cols : List String
  rows : List (List Value)
deriving DecidableEq, Repr

/-- Well-formedness of a frame: each row has one cell per column. -/
def DataFrame.Wf (df : DataFrame) : Prop :=
  ∀ r ∈ df.rows, r.length = df.cols.length

instance (df : DataFrame) : Decidable df.Wf := by
  unfold DataFrame.Wf; infer_instance

/-- Decidable equality on `Except`, used only to evaluate the embedding on
concrete inputs in witnesses. -/
instance {ε α : Type} [DecidableEq ε] [DecidableEq α] : DecidableEq (Except ε α) := by
  intro a b
  cases a <;> cases b
  case error.error e1 e2 =>
    exact if h : e1 = e2 then .isTrue (by rw [h]) else
      .isFalse (by intro hc; injection hc; exact h (by assumption))
  case error.ok e1 a2 => exact .isFalse (by intro hc; injection hc)
  case ok.error a1 e2 => exact .isFalse (by intro hc; injection hc)
  case ok.ok a1 a2 =>
    exact if h : a1 = a2 then .isTrue (by rw [h]) else
      .isFalse (by intro hc; injection hc; exact h (by assumption))

/-- The cell of row `r` in the column labelled `c`, where `cols` is the column
list of the frame the row belongs to.  Pandas label lookup on the (unique)
labels of a frame; out-of-range access yields a missing value. -/
def cellAt (cols : List String) (r : List Value) (c : String) : Value :=
  r.getD (List.indexOf c cols) Value.null

/-- A whole column of a frame as a list of cells, `df.loc[:, c]` in the
source. -/
def getColumn (df : DataFrame) (c : String) : List Value :=
  df.rows.map (fun r => cellAt df.cols r c)

/-- Pandas column assignment `df[c] = vals`: overwrite the column in place when
the label already exists, append a new rightmost column otherwise. -/
def setColumn (df : DataFrame) (c : String) (vals : List Value) : DataFrame :=
  if c ∈ df.cols then
    { cols := df.cols,
      rows := (df.rows.zip vals).map (fun p => p.1.set (List.indexOf c df.cols) p.2) }
  else
    { cols := df.cols ++ [c],
      rows := (df.rows.zip vals).map (fun p => p.1 ++ [p.2]) }

/-- The fatal aborts of the program.  The first three are the `SystemExit`
messages raised by `mark_matches` ("The index column name for the origin file
is invalid", "The index column name for the partner file is invalid") and by
`merge_datasets` ("The following columns do not appear in the partner file:
{cols}", which formats exactly the list carried here).  `unsupportedMerge`
stands for the cases in which `pd.merge` itself raises (a missing join label
or duplicate column labels) or would apply `_x`/`_y` suffixing, which is
outside the modelled fragment. -/
inductive AppError where
  | invalidOriginIndex
  | invalidPartnerIndex
  | missingPartnerColumns (cols : List String)
  | unsupportedMerge
deriving DecidableEq, Repr

/-! ### Decimal rendering of the suffix counter

`avoid_similar_columns` builds candidate names with the Python f-string
`f"{column_name}_{copy_count}"`, which renders the counter in decimal.  The
fuel-based `decDigitsAux` is that decimal rendering; fuel `n + 1` always
suffices since the number of digits of `n` is at most `n + 1`. -/

/-- The decimal digit characters. -/
def digitChar10 : Nat → Char
  | 0 => '0'
  | 1 => '1'
  | 2 => '2'
  | 3 => '3'
  | 4 => '4'
  | 5 => '5'
  | 6 => '6'
  | 7 => '7'
  | 8 => '8'
  | 9 => '9'
  | _ => '*'

/-- Decimal digits of `n`, most significant first, computed with explicit
fuel. -/
def decDigitsAux : Nat → Nat → List Char
  | 0, _ => []
  | fuel + 1, n =>
    if n < 10 then [digitChar10 n]
    else decDigitsAux fuel (n / 10) ++ [digitChar10 (n % 10)]

/-- Decimal string for a natural number, as Python f-string formatting renders
an `int`. -/
def natToDecString (n : Nat) : String :=
  ⟨decDigitsAux (n + 1) n⟩

/-- Numeric value of a digit string; inverse of `decDigitsAux`, used to prove
that distinct counters render to distinct strings. -/
def decValue (l : List Char) : Nat :=
  l.foldl (fun acc c => acc * 10 + (c.toNat - 48)) 0

/-- The candidate name the `while` loop of `avoid_similar_columns` tests when
`copy_count = k`: the unchanged name on the first attempt (`copy_count = 1`),
`f"{column_name}_{copy_count}"` afterwards. -/
def candidateName (column_name : String) (copy_count : Nat) : String :=
  if copy_count ≤ 1 then column_name
  else column_name ++ "_" ++ natToDecString copy_count

/-- Fuel-based rendering of the `while ult_name in column_list` loop of
`avoid_similar_columns`: starting from attempt `copy_count`, return the first
candidate name that is not in `column_list`.  The loop in the source always
terminates because the candidates are pairwise distinct and the list is
finite; fuel `column_list.length + 1` provably suffices, so the fuel-out
branch is never reached from `avoid_similar_columns`. -/
def avoidAux (column_name : String) (column_list : List String) : Nat → Nat → String
  | 0, copy_count => candidateName column_name copy_count
  | fuel + 1, copy_count =>
    if candidateName column_name copy_count ∈ column_list then
      avoidAux column_name column_list fuel (copy_count + 1)
    else candidateName column_name copy_count

/-- `avoid_similar_columns` from the source: return `column_name` unchanged if
it does not occur in `column_list`, else the first `column_name_k` (k = 2, 3,
...) that does not. -/
def avoid_similar_columns (column_name : String) (column_list : List String) : String :=
  avoidAux column_name column_list (column_list.length + 1) 1

/-- `mark_matches` from the source.  Checks that both index columns exist
(fatal `SystemExit` otherwise), computes `index_a.isin(index_b)` over the full
partner key column, maps the Boolean mask through the two-entry
`{True: match_marker, False: missmatch_marker}` table into a new result
column, and, when `drop_missmatches` is set, keeps only the rows whose result
cell equals `match_marker`. -/
def mark_matches (dataset_a dataset_b : DataFrame) (index_column_a index_column_b : String)
    (result_column_name : String) (match_marker missmatch_marker : Value)
    (drop_missmatches : Bool) : Except AppError DataFrame :=
  if index_column_a ∈ dataset_a.cols then
    if index_column_b ∈ dataset_b.cols then
      let index_a := getColumn dataset_a index_column_a
      let index_b := getColumn dataset_b index_column_b
      let marks := index_a.map (fun v => if v ∈ index_b then match_marker else missmatch_marker)
      let marked := setColumn dataset_a result_column_name marks
      if drop_missmatches then
        .ok { cols := marked.cols,
              rows := marked.rows.filter
                (fun r => decide (cellAt marked.cols r result_column_name = match_marker)) }
      else .ok marked
    else .error .invalidPartnerIndex
  else .error .invalidOriginIndex

/-- Pandas `df.drop(columns=unneeded)` as used in `merge_datasets`: keep, in
their original order, exactly the columns of `df` whose label is in `keep`. -/
def selectColumns (df : DataFrame) (keep : List String) : DataFrame :=
  let kept := df.cols.filter (fun c => c ∈ keep)
  { cols := kept,
    rows := df.rows.map (fun r => kept.map (fun c => cellAt df.cols r c)) }

/-- Pandas `drop_duplicates(subset=key, keep="first", ignore_index=True)`:
drop every row whose key cell has already occurred, keeping the first
occurrence in original row order.  `seen` accumulates the key cells already
kept. -/
def dedupFirstBy (cols : List String) (key : String) :
    List Value → List (List Value) → List (List Value)
  | _, [] => []
  | seen, r :: rs =>
    let k := cellAt cols r key
    if k ∈ seen then dedupFirstBy cols key seen rs
    else r :: dedupFirstBy cols key (k :: seen) rs

/-- The column-renaming loop of `merge_datasets`: every column of the reduced
partner view that occurs in `copy_columns` is passed through
`avoid_similar_columns` against `list(dataset_a.columns)` — the same origin
snapshot on every iteration — and the others are kept as they are. -/
def renameColumns (bcols : List String) (copy_columns : List String)
    (origin_cols : List String) : List String :=
  bcols.map (fun column =>
    if column ∈ copy_columns then avoid_similar_columns column origin_cols else column)

/-- The partner view `merge_datasets` feeds to `pd.merge`: project the partner
frame down to `copy_columns` plus the partner key (in partner column order),
deduplicate by the key keeping first occurrences, then rename the copy
columns against the origin column snapshot. -/
def reducedPartner (dataset_b : DataFrame) (index_column_b : String)
    (copy_columns : List String) (origin_cols : List String) : DataFrame :=
  let needed_columns := copy_columns ++ [index_column_b]
  let b1 := selectColumns dataset_b needed_columns
  let b2 : DataFrame := { cols := b1.cols, rows := dedupFirstBy b1.cols index_column_b [] b1.rows }
  { cols := renameColumns b2.cols copy_columns origin_cols, rows := b2.rows }

/-- One left row of a pandas left merge: the right rows whose key cell equals
the left key cell, each appended to the left row projected to `rightCols`; a
left row with no match is padded with missing values. -/
def joinRow (acols : List String) (b : DataFrame) (left_on right_on : String)
    (rightCols : List String) (ra : List Value) : List (List Value) :=
  match b.rows.filter (fun rb => decide (cellAt b.cols rb right_on = cellAt acols ra left_on)) with
  | [] => [ra ++ rightCols.map (fun _ => Value.null)]
  | ms => ms.map (fun rb => ra ++ rightCols.map (fun c => cellAt b.cols rb c))

/-- The guard of the modelled fragment of `pd.merge(..., how="left")`: both
join labels exist, labels on both sides are unique, and the only label the two
sides may share is a common join key (when `left_on == right_on` pandas emits
that column once; any other shared label would make pandas suffix both with
`_x`/`_y`, which is outside the model). -/
def mergeGuard (acols : List String) (b : DataFrame) (left_on right_on : String) : Prop :=
  left_on ∈ acols ∧ right_on ∈ b.cols ∧ acols.Nodup ∧ b.cols.Nodup ∧
    ∀ c ∈ b.cols, c ∈ acols → left_on = right_on ∧ c = right_on

instance (acols : List String) (b : DataFrame) (left_on right_on : String) :
    Decidable (mergeGuard acols b left_on right_on) := by
  unfold mergeGuard; infer_instance

/-- `pd.merge(left=a, right=b, left_on=left_on, right_on=right_on,
how="left")` on the modelled fragment: all left rows in order, each joined to
its matching right rows (padded with missing values when there is none); the
result columns are the left columns followed by the right columns, with the
right key column emitted only once when the two key labels coincide.  Inputs
on which pandas raises, or on which it would rename overlapping labels with
`_x`/`_y` suffixes, are mapped to `unsupportedMerge`. -/
def pdMergeLeft (a b : DataFrame) (left_on right_on : String) : Except AppError DataFrame :=
  if mergeGuard a.cols b left_on right_on then
    let rightCols := if left_on = right_on then b.cols.erase right_on else b.cols
    .ok { cols := a.cols ++ rightCols,
          rows := a.rows.flatMap (joinRow a.cols b left_on right_on rightCols) }
  else .error .unsupportedMerge

/-- `merge_datasets` from the source: append the partner key to a copy of
`copy_columns`, fail with a `SystemExit` naming every needed column absent
from the partner frame, and otherwise left-merge the origin frame with the
reduced partner view. -/
def merge_datasets (dataset_a dataset_b : DataFrame) (index_column_a index_column_b : String)
    (copy_columns : List String) : Except AppError DataFrame :=
  let needed_columns := copy_columns ++ [index_column_b]
  let nonexistent_columns := needed_columns.filter (fun c => c ∉ dataset_b.cols)
  if nonexistent_columns = [] then
    pdMergeLeft dataset_a
      (reducedPartner dataset_b index_column_b copy_columns dataset_a.cols)
      index_column_a index_column_b
  else .error (.missingPartnerColumns nonexistent_columns)

/-- Explicit-state rendering of the Python list operations `merge_datasets`
performs on its `copy_columns` argument: the source builds
`needed_columns = copy_columns.copy()` and appends `index_column_b` to the
copy only, so the caller's list object is unchanged after the call.  The pair
is (the caller's list after the call, the local `needed_columns`). -/
def merge_copy_columns_state (copy_columns : List String) (index_column_b : String) :
    List String × List String :=
  let needed_columns := copy_columns ++ [index_column_b]
  (copy_columns, needed_columns)

/-- The `copy_columns` list of the shared `merge_datasets_kwargs` dictionary
after `n` iterations of the chunked loop of `main`, each iteration calling
`merge_datasets` on the same list object. -/
def chunk_loop_copy_columns (index_column_b : String) : Nat → List String → List String
  | 0, cc => cc
  | n + 1, cc => chunk_loop_copy_columns index_column_b n (merge_copy_columns_state cc index_column_b).1

/-! ### Reader selection and the chunk coordinator of `main` -/

/-- The kwargs `get_read_kwargs` assembles for `pd.read_csv` / `pd.read_excel`:
whether an input path key was set (`io` or `filepath_or_buffer`), and the
`chunksize` / `low_memory` entries, present only when set. -/
structure ReadKwargs where
  has_input : Bool
  chunksize : Option Nat
  low_memory : Option Bool
deriving DecidableEq, Repr

/-- Python `str.lower()` as used on the file extension (character-wise
lowercasing; the extensions compared against are ASCII). -/
def lowercase (s : String) : String :=
  ⟨s.data.map Char.toLower⟩

/-- `get_read_kwargs` from the source: `xlsx` gets only the input path;
`csv` additionally gets `chunksize=100000` (and `low_memory=False`) when
`lazy_load` is set; an unknown extension yields empty kwargs.  The extension
is lowercased first. -/
def get_read_kwargs (file_extension : String) (lazy_load : Bool) : ReadKwargs :=
  let ext := lowercase file_extension
  if ext = "xlsx" then { has_input := true, chunksize := none, low_memory := none }
  else if ext = "csv" then
    { has_input := true,
      chunksize := if lazy_load then some 100000 else none,
      low_memory := if lazy_load then some false else none }
  else { has_input := false, chunksize := none, low_memory := none }

/-- `MAX_BYTES_SIZE` from `main` (14 MiB). -/
def MAX_BYTES_SIZE : Nat := 14680064

/-- `ORIGIN_LAZY_LOAD` from `main`: the origin file size in bytes reaches the
threshold.  This is the only condition `main` computes from the origin file
for mode selection. -/
def origin_lazy_load (origin_bytesize : Nat) : Bool :=
  MAX_BYTES_SIZE ≤ origin_bytesize

/-- The branch `main` takes: `if ORIGIN_LAZY_LOAD:` enters the chunked loop,
regardless of the origin file format. -/
def usesChunkedBranch (origin_bytesize : Nat) : Bool :=
  origin_lazy_load origin_bytesize

/-- The configuration `main` passes to `mark_matches` and `merge_datasets`
(from the parsed command line). -/
structure Config where
  origin_index : String
  partner_index : String
  results_column : String
  match_marker : Value
  missmatch_marker : Value
  copy_columns : List String
  delete_missmatches : Bool
deriving DecidableEq, Repr

/-- The body `main` runs on the whole origin frame in normal mode and on each
chunk in lazy-load mode: `mark_matches`, then — only when `copy_columns` is
non-empty — `merge_datasets` against the full partner frame. -/
def processOnce (cfg : Config) (partner chunk : DataFrame) : Except AppError DataFrame :=
  match mark_matches chunk partner cfg.origin_index cfg.partner_index
      cfg.results_column cfg.match_marker cfg.missmatch_marker cfg.delete_missmatches with
  | .error e => .error e
  | .ok marked =>
    if cfg.copy_columns = [] then .ok marked
    else merge_datasets marked partner cfg.origin_index cfg.partner_index cfg.copy_columns

/-- `pd.concat([x, y])`: the columns of `x` followed by the new columns of `y`
in order of appearance, the rows of `x` then the rows of `y`, each row aligned
to the combined columns by label with missing values where a frame lacks a
label. -/
def concatFrames (x y : DataFrame) : DataFrame :=
  let cols := x.cols ++ y.cols.filter (fun c => c ∉ x.cols)
  { cols := cols,
    rows :=
      x.rows.map (fun r => cols.map (fun c => if c ∈ x.cols then cellAt x.cols r c else Value.null))
        ++ y.rows.map (fun r => cols.map (fun c => if c ∈ y.cols then cellAt y.cols r c else Value.null)) }

/-- `result_df = pd.DataFrame()` — the empty accumulator of the chunked
loop. -/
def emptyFrame : DataFrame :=
  { cols := [], rows := [] }

/-- The chunked loop of `main`: process each chunk in arrival order with
`processOnce` and append its result to the accumulator with `pd.concat`,
aborting on the first fatal error. -/
def chunkedRunAux (cfg : Config) (partner : DataFrame) :
    DataFrame → List DataFrame → Except AppError DataFrame
  | acc, [] => .ok acc
  | acc, chunk :: chunks =>
    match processOnce cfg partner chunk with
    | .error e => .error e
    | .ok r => chunkedRunAux cfg partner (concatFrames acc r) chunks

/-- Lazy-load (chunked) mode of `main`, started on the empty accumulator. -/
def chunkedRun (cfg : Config) (partner : DataFrame) (chunks : List DataFrame) :
    Except AppError DataFrame :=
  chunkedRunAux cfg partner emptyFrame chunks

/-! ### Derived forms used to state and prove the theorems -/

/-- The column list `mark_matches` produces: the origin columns, with the
result column appended when its label is new. -/
def markedCols (cols : List String) (result_column_name : String) : List String :=
  if result_column_name ∈ cols then cols else cols ++ [result_column_name]

/-- The row transformation `mark_matches` applies to one origin row: write the
match or mismatch marker into the result column (in place when the label
exists, appended otherwise). -/
def markRow (cols : List String) (index_column_a result_column_name : String)
    (bkeys : List Value) (match_marker missmatch_marker : Value) (r : List Value) : List Value :=
  let v := if cellAt cols r index_column_a ∈ bkeys then match_marker else missmatch_marker
  if result_column_name ∈ cols then r.set (List.indexOf result_column_name cols) v
  else r ++ [v]

/-- The right-hand column list of the merge `processOnce` performs, as a
function of the marked column list. -/
def mergedRightCols (cfg : Config) (partner : DataFrame) (mcols : List String) : List String :=
  let b3 := reducedPartner partner cfg.partner_index cfg.copy_columns mcols
  if cfg.origin_index = cfg.partner_index then b3.cols.erase cfg.partner_index else b3.cols

/-- The column list of the frame `processOnce` produces, a function of the
chunk column list only. -/
def processedCols (cfg : Config) (partner : DataFrame) (origin_cols : List String) : List String :=
  let mcols := markedCols origin_cols cfg.results_column
  if cfg.copy_columns = [] then mcols
  else mcols ++ mergedRightCols cfg partner mcols

/-- The rows `processOnce` produces from one origin row: mark it, drop it if
`delete_missmatches` is set and it did not match, and left-join it when copy
columns were requested.  The whole per-chunk body is this function flat-mapped
over the chunk rows, which is what makes chunked and whole-dataset mode
agree. -/
def processRow (cfg : Config) (partner : DataFrame) (origin_cols : List String)
    (r : List Value) : List (List Value) :=
  let mcols := markedCols origin_cols cfg.results_column
  let bkeys := getColumn partner cfg.partner_index
  let m := markRow origin_cols cfg.origin_index cfg.results_column bkeys
    cfg.match_marker cfg.missmatch_marker r
  let kept : List (List Value) :=
    if cfg.delete_missmatches then
      if cellAt mcols m cfg.results_column = cfg.match_marker then [m] else []
    else [m]
  if cfg.copy_columns = [] then kept
  else
    kept.flatMap (joinRow mcols (reducedPartner partner cfg.partner_index cfg.copy_columns mcols)
      cfg.origin_index cfg.partner_index (mergedRightCols cfg partner mcols))

/-- Success condition of `processOnce` on a chunk, a function of the chunk
column list only: the index columns exist, and when a merge happens all
needed partner columns exist and the merge lies in the modelled pandas
fragment. -/
def processOk (cfg : Config) (partner : DataFrame) (origin_cols : List String) : Prop :=
  cfg.origin_index ∈ origin_cols ∧ cfg.partner_index ∈ partner.cols ∧
    (cfg.copy_columns ≠ [] →
      ((cfg.copy_columns ++ [cfg.partner_index]).filter (fun c => c ∉ partner.cols) = [] ∧
        mergeGuard (markedCols origin_cols cfg.results_column)
          (reducedPartner partner cfg.partner_index cfg.copy_columns
            (markedCols origin_cols cfg.results_column))
          cfg.origin_index cfg.partner_index))

instance (cfg : Config) (partner : DataFrame) (origin_cols : List String) :
    Decidable (processOk cfg partner origin_cols) := by
  unfold processOk; infer_instance

end Excelinator

namespace Excelinator

/-! ## Properties of the decimal rendering and of the Column Namer -/

theorem digitChar10_toNat {d : Nat} (hd : d < 10) : (digitChar10 d).toNat - 48 = d := by
  interval_cases d <;> rfl

theorem decValue_append_singleton (l : List Char) (c : Char) :
    decValue (l ++ [c]) = decValue l * 10 + (c.toNat - 48) := by
  unfold decValue
  rw [List.foldl_append]
  rfl

theorem decValue_decDigitsAux : ∀ (fuel n : Nat), n < 10 ^ fuel →
    decValue (decDigitsAux fuel n) = n := by
  intro fuel
  induction fuel with
  | zero =>
    intro n h
    simp only [pow_zero, Nat.lt_one_iff] at h
    subst h
    rfl
  | succ f ih =>
    intro n h
    by_cases hn : n < 10
    · simp only [decDigitsAux, if_pos hn]
      unfold decValue
      simp only [List.foldl_cons, List.foldl_nil]
      have := digitChar10_toNat hn
      omega
    · simp only [decDigitsAux, if_neg hn]
      rw [decValue_append_singleton]
      have hdiv : n / 10 < 10 ^ f := by
        rw [Nat.div_lt_iff_lt_mul (by norm_num : (0:Nat) < 10)]
        rw [pow_succ] at h
        exact h
      rw [ih (n / 10) hdiv, digitChar10_toNat (Nat.mod_lt n (by norm_num))]
      omega

theorem natToDecString_inj {m n : Nat} (h : natToDecString m = natToDecString n) : m = n := by
  have hd : decDigitsAux (m + 1) m = decDigitsAux (n + 1) n := congrArg String.data h
  have hm : m < 10 ^ (m + 1) :=
    lt_of_lt_of_le (Nat.lt_pow_self (by norm_num) m)
      (Nat.pow_le_pow_right (by norm_num) (Nat.le_succ m))
  have hn : n < 10 ^ (n + 1) :=
    lt_of_lt_of_le (Nat.lt_pow_self (by norm_num) n)
      (Nat.pow_le_pow_right (by norm_num) (Nat.le_succ n))
  calc m = decValue (decDigitsAux (m + 1) m) := (decValue_decDigitsAux _ _ hm).symm
    _ = decValue (decDigitsAux (n + 1) n) := by rw [hd]
    _ = n := decValue_decDigitsAux _ _ hn

theorem candidateName_one (c : String) : candidateName c 1 = c := by
  simp [candidateName]

theorem candidateName_inj {c : String} {j k : Nat} (hj : 1 ≤ j) (hk : 1 ≤ k)
    (h : candidateName c j = candidateName c k) : j = k := by
  unfold candidateName at h
  have hu : String.length "_" = 1 := rfl
  by_cases hj1 : j ≤ 1 <;> by_cases hk1 : k ≤ 1
  · omega
  · rw [if_pos hj1, if_neg hk1] at h
    have hlen := congrArg String.length h
    rw [String.length_append, String.length_append] at hlen
    omega
  · rw [if_neg hj1, if_pos hk1] at h
    have hlen := congrArg String.length h
    rw [String.length_append, String.length_append] at hlen
    omega
  · rw [if_neg hj1, if_neg hk1] at h
    have hdata := congrArg String.data h
    simp only [String.data_append] at hdata
    have hcancel := List.append_cancel_left hdata
    exact natToDecString_inj (String.ext hcancel)

theorem exists_candidate_not_mem (c : String) (l : List String) :
    ∃ j, 1 ≤ j ∧ j ≤ l.length + 1 ∧ candidateName c j ∉ l := by
  by_contra hall
  push_neg at hall
  have hsub : ∀ x ∈ (List.range' 1 (l.length + 1)).map (candidateName c), x ∈ l := by
    intro x hx
    rcases List.mem_map.mp hx with ⟨j, hj, rfl⟩
    rcases List.mem_range'_1.mp hj with ⟨h1, h2⟩
    exact hall j h1 (by omega)
  have hnd : ((List.range' 1 (l.length + 1)).map (candidateName c)).Nodup := by
    refine List.Nodup.map_on ?_ (List.nodup_range' 1 (l.length + 1))
    intro x hx y hy hxy
    rcases List.mem_range'_1.mp hx with ⟨hx1, _⟩
    rcases List.mem_range'_1.mp hy with ⟨hy1, _⟩
    exact candidateName_inj hx1 hy1 hxy
  have hcard1 : ((List.range' 1 (l.length + 1)).map (candidateName c)).toFinset.card
      = l.length + 1 := by
    rw [List.toFinset_card_of_nodup hnd, List.length_map, List.length_range']
  have hcard2 : ((List.range' 1 (l.length + 1)).map (candidateName c)).toFinset.card
      ≤ l.toFinset.card := by
    apply Finset.card_le_card
    intro x hx
    exact List.mem_toFinset.mpr (hsub x (List.mem_toFinset.mp hx))
  have hcard3 := List.toFinset_card_le l
  omega

theorem avoidAux_least (c : String) (l : List String) :
    ∀ (fuel k : Nat), (∃ j, k ≤ j ∧ j ≤ k + fuel ∧ candidateName c j ∉ l) →
    ∃ m, k ≤ m ∧ avoidAux c l fuel k = candidateName c m ∧ candidateName c m ∉ l ∧
      ∀ i, k ≤ i → i < m → candidateName c i ∈ l := by
  intro fuel
  induction fuel with
  | zero =>
    intro k hex
    rcases hex with ⟨j, hj1, hj2, hj3⟩
    have hjk : j = k := by omega
    subst hjk
    refine ⟨j, le_refl _, rfl, hj3, ?_⟩
    intro i h1 h2
    exact absurd h2 (Nat.not_lt.mpr h1)
  | succ f ih =>
    intro k hex
    by_cases hmem : candidateName c k ∈ l
    · have hex2 : ∃ j, k + 1 ≤ j ∧ j ≤ (k + 1) + f ∧ candidateName c j ∉ l := by
        rcases hex with ⟨j, hj1, hj2, hj3⟩
        refine ⟨j, ?_, by omega, hj3⟩
        rcases Nat.eq_or_lt_of_le hj1 with he | hl2
        · exact absurd (he ▸ hmem) hj3
        · omega
      rcases ih (k + 1) hex2 with ⟨m, hm1, hm2, hm3, hm4⟩
      refine ⟨m, by omega, ?_, hm3, ?_⟩
      · simp only [avoidAux, if_pos hmem]
        exact hm2
      · intro i h1 h2
        rcases Nat.eq_or_lt_of_le h1 with he | hl2
        · rw [← he]
          exact hmem
        · exact hm4 i hl2 h2
    · refine ⟨k, le_refl _, ?_, hmem, ?_⟩
      · simp only [avoidAux, if_neg hmem]
      · intro i h1 h2
        exact absurd h2 (Nat.not_lt.mpr h1)

theorem avoid_spec (c : String) (l : List String) :
    ∃ m, 1 ≤ m ∧ avoid_similar_columns c l = candidateName c m ∧ candidateName c m ∉ l ∧
      ∀ i, 1 ≤ i → i < m → candidateName c i ∈ l := by
  rcases exists_candidate_not_mem c l with ⟨j, h1, h2, h3⟩
  exact avoidAux_least c l (l.length + 1) 1 ⟨j, h1, by omega, h3⟩

theorem avoid_not_mem (c : String) (l : List String) : avoid_similar_columns c l ∉ l := by
  rcases avoid_spec c l with ⟨m, _, he, hn, _⟩
  rw [he]
  exact hn

theorem avoid_of_not_mem {c : String} {l : List String} (h : c ∉ l) :
    avoid_similar_columns c l = c := by
  rcases avoid_spec c l with ⟨m, h1, he, hn, hlt⟩
  have hm : m = 1 := by
    by_contra hne
    have h2 : 1 < m := by omega
    have h3 := hlt 1 (le_refl _) h2
    rw [candidateName_one] at h3
    exact h h3
  rw [he, hm, candidateName_one]

theorem avoid_idem (c : String) (l : List String) :
    avoid_similar_columns (avoid_similar_columns c l) l = avoid_similar_columns c l :=
  avoid_of_not_mem (avoid_not_mem c l)

end Excelinator

namespace Excelinator

/-! ## Shape of `mark_matches` -/

theorem mark_matches_ok_mem {a b : DataFrame} {ixa ixb resc : String} {mm mism : Value}
    {dropFlag : Bool} {m : DataFrame}
    (h : mark_matches a b ixa ixb resc mm mism dropFlag = .ok m) :
    ixa ∈ a.cols ∧ ixb ∈ b.cols := by
  unfold mark_matches at h
  by_cases ha : ixa ∈ a.cols
  · by_cases hb : ixb ∈ b.cols
    · exact ⟨ha, hb⟩
    · rw [if_pos ha, if_neg hb] at h
      exact Except.noConfusion h
  · rw [if_neg ha] at h
    exact Except.noConfusion h

theorem mark_matches_eq (a b : DataFrame) (ixa ixb resc : String) (mm mism : Value)
    (dropFlag : Bool) (ha : ixa ∈ a.cols) (hb : ixb ∈ b.cols) :
    mark_matches a b ixa ixb resc mm mism dropFlag = .ok
      { cols := markedCols a.cols resc,
        rows :=
          if dropFlag then
            (a.rows.map (markRow a.cols ixa resc (getColumn b ixb) mm mism)).filter
              (fun r => decide (cellAt (markedCols a.cols resc) r resc = mm))
          else a.rows.map (markRow a.cols ixa resc (getColumn b ixb) mm mism) } := by
  have hzip := List.zip_map' id
    (fun r => if cellAt a.cols r ixa ∈ List.map (fun rb => cellAt b.cols rb ixb) b.rows
      then mm else mism) a.rows
  rw [List.map_id] at hzip
  simp only [id_eq] at hzip
  have hset : setColumn a resc ((getColumn a ixa).map
      (fun v => if v ∈ getColumn b ixb then mm else mism)) =
      { cols := markedCols a.cols resc,
        rows := a.rows.map (markRow a.cols ixa resc (getColumn b ixb) mm mism) } := by
    unfold setColumn markedCols markRow getColumn
    by_cases hc : resc ∈ a.cols
    · simp only [if_pos hc]
      rw [List.map_map]
      simp only [Function.comp_def]
      rw [hzip, List.map_map]
      rfl
    · simp only [if_neg hc]
      rw [List.map_map]
      simp only [Function.comp_def]
      rw [hzip, List.map_map]
      rfl
  simp only [mark_matches, if_pos ha, if_pos hb, hset]
  split <;> rfl

theorem markRow_length (cols : List String) (ixa resc : String) (bkeys : List Value)
    (mm mism : Value) (r : List Value) (hr : r.length = cols.length) :
    (markRow cols ixa resc bkeys mm mism r).length = (markedCols cols resc).length := by
  unfold markRow markedCols
  by_cases hc : resc ∈ cols
  · rw [if_pos hc, if_pos hc, List.length_set]
    exact hr
  · rw [if_neg hc, if_neg hc, List.length_append, List.length_append]
    simp [hr]

theorem cellAt_markRow (cols : List String) (ixa resc : String) (bkeys : List Value)
    (mm mism : Value) (r : List Value) (hr : r.length = cols.length) :
    cellAt (markedCols cols resc) (markRow cols ixa resc bkeys mm mism r) resc =
      (if cellAt cols r ixa ∈ bkeys then mm else mism) := by
  unfold markedCols markRow cellAt
  by_cases hc : resc ∈ cols
  · rw [if_pos hc, if_pos hc]
    have hidx : List.indexOf resc cols < r.length := by
      rw [hr]
      exact List.indexOf_lt_length.mpr hc
    rw [List.getD_eq_getElem _ _ (by rw [List.length_set]; exact hidx)]
    rw [List.getElem_set]
    rw [if_pos rfl]
  · rw [if_neg hc, if_neg hc]
    have hidx : List.indexOf resc (cols ++ [resc]) = cols.length := by
      rw [List.indexOf_append_of_not_mem hc]
      simp
    rw [hidx]
    rw [List.getD_eq_getElem _ _ (by rw [List.length_append, hr]; simp)]
    rw [List.getElem_append_right (by omega)]
    have h0 : cols.length - r.length = 0 := by omega
    simp [h0]

end Excelinator

namespace Excelinator

theorem mark_matches_eq_false (a b : DataFrame) (ixa ixb resc : String) (mm mism : Value)
    (ha : ixa ∈ a.cols) (hb : ixb ∈ b.cols) :
    mark_matches a b ixa ixb resc mm mism false = .ok
      { cols := markedCols a.cols resc,
        rows := a.rows.map (markRow a.cols ixa resc (getColumn b ixb) mm mism) } := by
  rw [mark_matches_eq a b ixa ixb resc mm mism false ha hb]
  rfl

theorem mark_matches_eq_true (a b : DataFrame) (ixa ixb resc : String) (mm mism : Value)
    (ha : ixa ∈ a.cols) (hb : ixb ∈ b.cols) :
    mark_matches a b ixa ixb resc mm mism true = .ok
      { cols := markedCols a.cols resc,
        rows := (a.rows.map (markRow a.cols ixa resc (getColumn b ixb) mm mism)).filter
          (fun r => decide (cellAt (markedCols a.cols resc) r resc = mm)) } := by
  rw [mark_matches_eq a b ixa ixb resc mm mism true ha hb]
  rfl

/-- C2: after the Matcher runs (without dropping), every origin row's result
cell is exactly `match_marker` when its key cell occurs anywhere in the full
partner key column and exactly `missmatch_marker` otherwise — the marker
values are written as given, with no coercion — and, whenever the two markers
differ, the result cell equals `match_marker` if and only if the key is
present.  Membership is tested against the whole partner column, before any
deduplication. -/
theorem matcher_marks_membership (a b : DataFrame) (ixa ixb resc : String)
    (mm mism : Value) (m : DataFrame) (hwf : a.Wf)
    (h : mark_matches a b ixa ixb resc mm mism false = .ok m) :
    m.rows.length = a.rows.length ∧
    ∀ i (hi : i < a.rows.length) (him : i < m.rows.length),
      cellAt m.cols m.rows[i] resc =
        (if cellAt a.cols a.rows[i] ixa ∈ getColumn b ixb then mm else mism) ∧
      (mm ≠ mism → (cellAt m.cols m.rows[i] resc = mm ↔
        cellAt a.cols a.rows[i] ixa ∈ getColumn b ixb)) := by
  obtain ⟨ha, hb⟩ := mark_matches_ok_mem h
  rw [mark_matches_eq_false a b ixa ixb resc mm mism ha hb] at h
  injection h with h
  subst h
  refine ⟨by simp, ?_⟩
  intro i hi him
  have hmem : a.rows[i] ∈ a.rows := List.getElem_mem hi
  have hlen : (a.rows[i]).length = a.cols.length := hwf _ hmem
  have hcell := cellAt_markRow a.cols ixa resc (getColumn b ixb) mm mism (a.rows[i]) hlen
  have hrow : (DataFrame.mk (markedCols a.cols resc)
      (a.rows.map (markRow a.cols ixa resc (getColumn b ixb) mm mism))).rows[i]
      = markRow a.cols ixa resc (getColumn b ixb) mm mism (a.rows[i]) := List.getElem_map _
  rw [hrow]
  refine ⟨hcell, ?_⟩
  intro hne
  rw [hcell]
  by_cases hin : cellAt a.cols a.rows[i] ixa ∈ getColumn b ixb
  · simp [hin]
  · simp [hin, Ne.symm hne]

/-- Witness for C2 at the spec scenario: origin keys [1, 2, 3], partner keys
[2, 3, 4] give markers [N, Y, Y], so the marked frame has as many rows as the
origin. -/
theorem matcher_marks_membership_witness :
    (DataFrame.mk ["k", "R"]
      [[Value.num 1, Value.str "N"], [Value.num 2, Value.str "Y"],
        [Value.num 3, Value.str "Y"]]).rows.length
      = (DataFrame.mk ["k"] [[Value.num 1], [Value.num 2], [Value.num 3]]).rows.length :=
  (matcher_marks_membership (DataFrame.mk ["k"] [[Value.num 1], [Value.num 2], [Value.num 3]])
    (DataFrame.mk ["k"] [[Value.num 2], [Value.num 3], [Value.num 4]]) "k" "k" "R"
    (Value.str "Y") (Value.str "N")
    (DataFrame.mk ["k", "R"]
      [[Value.num 1, Value.str "N"], [Value.num 2, Value.str "Y"], [Value.num 3, Value.str "Y"]])
    (by decide) (by decide)).1

/-- C7: with `drop_unmatched` set, the Matcher keeps exactly the rows whose
result cell equals `match_marker` by value equality, in input order; hence
when the two markers are configured equal every row is kept, and when they
differ the output row count is the number of matched rows. -/
theorem matcher_drop_unmatched (a b : DataFrame) (ixa ixb resc : String) (mm mism : Value)
    (m d : DataFrame) (hwf : a.Wf)
    (hm : mark_matches a b ixa ixb resc mm mism false = .ok m)
    (hd : mark_matches a b ixa ixb resc mm mism true = .ok d) :
    d.cols = m.cols ∧
    d.rows = m.rows.filter (fun r => decide (cellAt m.cols r resc = mm)) ∧
    (mm = mism → d.rows.length = a.rows.length) ∧
    (mm ≠ mism → d.rows.length =
      (a.rows.filter (fun r => decide (cellAt a.cols r ixa ∈ getColumn b ixb))).length) := by
  obtain ⟨ha, hb⟩ := mark_matches_ok_mem hm
  rw [mark_matches_eq_false a b ixa ixb resc mm mism ha hb] at hm
  rw [mark_matches_eq_true a b ixa ixb resc mm mism ha hb] at hd
  injection hm with hm
  injection hd with hd
  subst hm
  subst hd
  refine ⟨rfl, rfl, ?_, ?_⟩
  · intro he
    have hall : ∀ r ∈ a.rows.map (markRow a.cols ixa resc (getColumn b ixb) mm mism),
        (fun r => decide (cellAt (markedCols a.cols resc) r resc = mm)) r = true := by
      intro r hr
      rcases List.mem_map.mp hr with ⟨r0, hr0, rfl⟩
      show decide (cellAt (markedCols a.cols resc)
        (markRow a.cols ixa resc (getColumn b ixb) mm mism r0) resc = mm) = true
      rw [cellAt_markRow a.cols ixa resc (getColumn b ixb) mm mism r0 (hwf r0 hr0)]
      rw [← he, ite_self]
      simp
    show ((a.rows.map (markRow a.cols ixa resc (getColumn b ixb) mm mism)).filter
      (fun r => decide (cellAt (markedCols a.cols resc) r resc = mm))).length = a.rows.length
    rw [List.filter_eq_self.mpr hall, List.length_map]
  · intro hne
    show ((a.rows.map (markRow a.cols ixa resc (getColumn b ixb) mm mism)).filter
      (fun r => decide (cellAt (markedCols a.cols resc) r resc = mm))).length = _
    rw [List.filter_map, List.length_map]
    congr 1
    apply List.filter_congr
    intro r hr
    simp only [Function.comp_def]
    rw [cellAt_markRow a.cols ixa resc (getColumn b ixb) mm mism r (hwf r hr)]
    by_cases hin : cellAt a.cols r ixa ∈ getColumn b ixb
    · simp [hin]
    · simp [hin, Ne.symm hne]

/-- Witness for C7 at the spec scenario: with keys [1, 2, 3] against [2, 3, 4]
and `drop_unmatched` set, only the two matched rows survive, which is the
count of matched origin rows. -/
theorem matcher_drop_unmatched_witness :
    (DataFrame.mk ["k", "R"]
      [[Value.num 2, Value.str "Y"], [Value.num 3, Value.str "Y"]]).rows.length =
      ((DataFrame.mk ["k"] [[Value.num 1], [Value.num 2], [Value.num 3]]).rows.filter
        (fun r => decide (cellAt ["k"] r "k" ∈
          getColumn (DataFrame.mk ["k"] [[Value.num 2], [Value.num 3], [Value.num 4]]) "k"))).length :=
  (matcher_drop_unmatched (DataFrame.mk ["k"] [[Value.num 1], [Value.num 2], [Value.num 3]])
    (DataFrame.mk ["k"] [[Value.num 2], [Value.num 3], [Value.num 4]]) "k" "k" "R"
    (Value.str "Y") (Value.str "N")
    (DataFrame.mk ["k", "R"]
      [[Value.num 1, Value.str "N"], [Value.num 2, Value.str "Y"], [Value.num 3, Value.str "Y"]])
    (DataFrame.mk ["k", "R"]
      [[Value.num 2, Value.str "Y"], [Value.num 3, Value.str "Y"]])
    (by decide) (by decide) (by decide)).2.2.2 (by decide)

/-- C9: the Column Namer returns its candidate unchanged when it is not among
the existing names; otherwise it returns `candidate_k` for the smallest
`k ≥ 2` whose suffixed name is free (every smaller suffixed candidate is
taken); in every case the returned name is absent from the existing names; and
it is idempotent on its own output (already-unique names are fixed points).
It is a pure function of its two arguments, hence deterministic. -/
theorem column_namer_spec (c : String) (l : List String) :
    avoid_similar_columns c l ∉ l ∧
    (c ∉ l → avoid_similar_columns c l = c) ∧
    (c ∈ l → ∃ k, 2 ≤ k ∧ avoid_similar_columns c l = c ++ "_" ++ natToDecString k ∧
      ∀ j, 2 ≤ j → j < k → c ++ "_" ++ natToDecString j ∈ l) ∧
    avoid_similar_columns (avoid_similar_columns c l) l = avoid_similar_columns c l := by
  refine ⟨avoid_not_mem c l, fun h => avoid_of_not_mem h, ?_, avoid_idem c l⟩
  intro hc
  rcases avoid_spec c l with ⟨m, h1, he, hn, hlt⟩
  have hm2 : 2 ≤ m := by
    by_contra hx
    have hm1 : m = 1 := by omega
    rw [hm1, candidateName_one] at hn
    exact hn hc
  refine ⟨m, hm2, ?_, ?_⟩
  · rw [he]
    unfold candidateName
    rw [if_neg (by omega)]
  · intro j hj2 hjm
    have hj := hlt j (by omega) hjm
    unfold candidateName at hj
    rw [if_neg (by omega)] at hj
    exact hj

/-- Witness for C9: with origin columns [a, a_2] the taken candidate `a` and
`a_2` are skipped and `a_3` is returned. -/
theorem column_namer_spec_witness :
    ∃ k, 2 ≤ k ∧ avoid_similar_columns "a" ["a", "a_2"] = "a" ++ "_" ++ natToDecString k ∧
      ∀ j, 2 ≤ j → j < k → "a" ++ "_" ++ natToDecString j ∈ ["a", "a_2"] :=
  (column_namer_spec "a" ["a", "a_2"]).2.2.1 (by decide)

end Excelinator

namespace Excelinator

/-! ## Shape of `merge_datasets` -/

theorem merge_ok_shape {a b : DataFrame} {ixa ixb : String} {cc : List String} {r : DataFrame}
    (h : merge_datasets a b ixa ixb cc = .ok r) :
    (cc ++ [ixb]).filter (fun c => c ∉ b.cols) = [] ∧
    mergeGuard a.cols (reducedPartner b ixb cc a.cols) ixa ixb ∧
    r = { cols := a.cols ++ (if ixa = ixb then (reducedPartner b ixb cc a.cols).cols.erase ixb
                             else (reducedPartner b ixb cc a.cols).cols),
          rows := a.rows.flatMap (joinRow a.cols (reducedPartner b ixb cc a.cols) ixa ixb
            (if ixa = ixb then (reducedPartner b ixb cc a.cols).cols.erase ixb
             else (reducedPartner b ixb cc a.cols).cols)) } := by
  simp only [merge_datasets, pdMergeLeft] at h
  by_cases h1 : (cc ++ [ixb]).filter (fun c => c ∉ b.cols) = []
  · rw [if_pos h1] at h
    by_cases h2 : mergeGuard a.cols (reducedPartner b ixb cc a.cols) ixa ixb
    · rw [if_pos h2] at h
      injection h with h
      exact ⟨h1, h2, h.symm⟩
    · rw [if_neg h2] at h
      exact Except.noConfusion h
  · rw [if_neg h1] at h
    exact Except.noConfusion h

theorem indexOf_congr_of_iff {x : String} : ∀ {l1 l2 : List String},
    l1.length = l2.length →
    (∀ i (h1 : i < l1.length) (h2 : i < l2.length), l1[i] = x ↔ l2[i] = x) →
    List.indexOf x l1 = List.indexOf x l2 := by
  intro l1
  induction l1 with
  | nil =>
    intro l2 hlen _
    rw [List.length_nil] at hlen
    have h2 : l2 = [] := List.eq_nil_of_length_eq_zero hlen.symm
    subst h2
    rfl
  | cons a t ih =>
    intro l2 hlen hiff
    cases l2 with
    | nil => simp at hlen
    | cons b t2 =>
      have h0 := hiff 0 (by simp) (by simp)
      simp only [List.getElem_cons_zero] at h0
      by_cases hax : a = x
      · have hbx : b = x := h0.mp hax
        subst hax
        subst hbx
        rw [List.indexOf_cons_self, List.indexOf_cons_self]
      · have hbx : ¬ b = x := fun hb => hax (h0.mpr hb)
        rw [List.indexOf_cons_ne _ hax, List.indexOf_cons_ne _ hbx]
        have hlen2 : t.length = t2.length := by
          simp only [List.length_cons] at hlen
          omega
        have hiff2 : ∀ i (h1 : i < t.length) (h2 : i < t2.length), t[i] = x ↔ t2[i] = x := by
          intro i hi1 hi2
          have := hiff (i + 1) (by simp; omega) (by simp; omega)
          simpa using this
        rw [ih hlen2 hiff2]

theorem indexOf_renameColumns_key (b1cols cc acols : List String) (ixb : String)
    (hnd3 : (renameColumns b1cols cc acols).Nodup)
    (hmem3 : ixb ∈ renameColumns b1cols cc acols)
    (hixb1 : ixb ∈ b1cols) :
    List.indexOf ixb (renameColumns b1cols cc acols) = List.indexOf ixb b1cols := by
  unfold renameColumns at hnd3 hmem3 ⊢
  have hren : (if ixb ∈ cc then avoid_similar_columns ixb acols else ixb) = ixb := by
    by_cases hcc : ixb ∈ cc
    · rw [if_pos hcc]
      by_cases hac : ixb ∈ acols
      · exfalso
        rcases List.mem_map.mp hmem3 with ⟨y, hy, hyx⟩
        by_cases hyc : y ∈ cc
        · rw [if_pos hyc] at hyx
          exact avoid_not_mem y acols (hyx ▸ hac)
        · rw [if_neg hyc] at hyx
          subst hyx
          exact hyc hcc
      · exact avoid_of_not_mem hac
    · rw [if_neg hcc]
  apply indexOf_congr_of_iff (by rw [List.length_map])
  intro i h1 h2
  simp only [List.getElem_map]
  constructor
  · intro hi3
    by_cases hyc : b1cols[i] ∈ cc
    · rw [if_pos hyc] at hi3
      have hj : List.indexOf ixb b1cols < b1cols.length := List.indexOf_lt_length.mpr hixb1
      have hbj : b1cols[List.indexOf ixb b1cols] = ixb := List.getElem_indexOf hj
      have hj2 : List.indexOf ixb b1cols < (b1cols.map
          (fun column => if column ∈ cc then avoid_similar_columns column acols
            else column)).length := by
        rw [List.length_map]
        exact hj
      have h3j : (b1cols.map
          (fun column => if column ∈ cc then avoid_similar_columns column acols
            else column))[List.indexOf ixb b1cols] = ixb := by
        simp only [List.getElem_map, hbj]
        exact hren
      have h3i : (b1cols.map
          (fun column => if column ∈ cc then avoid_similar_columns column acols
            else column))[i] = ixb := by
        simp only [List.getElem_map]
        rw [if_pos hyc]
        exact hi3
      have hij : i = List.indexOf ixb b1cols :=
        (hnd3.getElem_inj_iff).mp (h3i.trans h3j.symm)
      subst hij
      exact hbj
    · rw [if_neg hyc] at hi3
      exact hi3
  · intro hi1
    rw [hi1]
    exact hren

theorem reducedPartner_cols (b : DataFrame) (ixb : String) (cc acols : List String) :
    (reducedPartner b ixb cc acols).cols =
      renameColumns (selectColumns b (cc ++ [ixb])).cols cc acols := rfl

theorem reducedPartner_rows (b : DataFrame) (ixb : String) (cc acols : List String) :
    (reducedPartner b ixb cc acols).rows =
      dedupFirstBy (selectColumns b (cc ++ [ixb])).cols ixb [] (selectColumns b (cc ++ [ixb])).rows
    := rfl

theorem cellAt_reducedPartner_key (b : DataFrame) (ixb : String) (cc acols : List String)
    (hnd3 : (reducedPartner b ixb cc acols).cols.Nodup)
    (hmem3 : ixb ∈ (reducedPartner b ixb cc acols).cols)
    (hixb1 : ixb ∈ (selectColumns b (cc ++ [ixb])).cols)
    (rrow : List Value) :
    cellAt (reducedPartner b ixb cc acols).cols rrow ixb =
      cellAt (selectColumns b (cc ++ [ixb])).cols rrow ixb := by
  unfold cellAt
  rw [reducedPartner_cols] at hnd3 hmem3 ⊢
  rw [indexOf_renameColumns_key _ cc acols ixb hnd3 hmem3 hixb1]

theorem dedupFirstBy_spec (cols : List String) (key : String) :
    ∀ (rows : List (List Value)) (seen : List Value),
      (∀ r ∈ dedupFirstBy cols key seen rows, cellAt cols r key ∉ seen) ∧
      ((dedupFirstBy cols key seen rows).map (fun r => cellAt cols r key)).Nodup := by
  intro rows
  induction rows with
  | nil =>
    intro seen
    simp [dedupFirstBy]
  | cons r rs ih =>
    intro seen
    simp only [dedupFirstBy]
    by_cases hk : cellAt cols r key ∈ seen
    · rw [if_pos hk]
      exact ih seen
    · rw [if_neg hk]
      constructor
      · intro r2 hr2
        rcases List.mem_cons.mp hr2 with he | h2
        · subst he
          exact hk
        · have h3 := (ih (cellAt cols r key :: seen)).1 r2 h2
          intro hc
          exact h3 (List.mem_cons_of_mem _ hc)
      · rw [List.map_cons, List.nodup_cons]
        constructor
        · intro hmem
          rcases List.mem_map.mp hmem with ⟨r2, hr2, heq⟩
          have h3 := (ih (cellAt cols r key :: seen)).1 r2 hr2
          rw [heq] at h3
          exact h3 (List.mem_cons_self _ _)
        · exact (ih (cellAt cols r key :: seen)).2

theorem length_filter_key_le_one {α β : Type} [DecidableEq β] (f : α → β) (x : β) :
    ∀ (l : List α), (l.map f).Nodup → (l.filter (fun r => decide (f r = x))).length ≤ 1 := by
  intro l
  induction l with
  | nil => simp
  | cons a t ih =>
    intro h
    rw [List.map_cons, List.nodup_cons] at h
    by_cases hx : f a = x
    · rw [List.filter_cons_of_pos (by simp [hx])]
      have hnil : t.filter (fun r => decide (f r = x)) = [] := by
        rw [List.filter_eq_nil_iff]
        intro bb hb hfb
        simp only [decide_eq_true_eq] at hfb
        apply h.1
        rw [hx, ← hfb]
        exact List.mem_map_of_mem f hb
      rw [hnil]
      simp
    · rw [List.filter_cons_of_neg (by simp [hx])]
      exact ih h.2

theorem joinRow_length_one (acols : List String) (b : DataFrame) (lo ro : String)
    (rightCols : List String) (ra : List Value)
    (hkeys : (b.rows.map (fun rb => cellAt b.cols rb ro)).Nodup) :
    (joinRow acols b lo ro rightCols ra).length = 1 := by
  unfold joinRow
  rcases hfil : b.rows.filter (fun rb => decide (cellAt b.cols rb ro = cellAt acols ra lo))
    with _ | ⟨m, mt⟩
  · rfl
  · have hle := length_filter_key_le_one (fun rb => cellAt b.cols rb ro)
      (cellAt acols ra lo) b.rows hkeys
    rw [hfil] at hle
    simp only [List.length_cons] at hle
    show ((m :: mt).map (fun rb => ra ++ rightCols.map (fun c => cellAt b.cols rb c))).length = 1
    rw [List.length_map, List.length_cons]
    omega

theorem length_flatMap_of_one {α β : Type} (f : α → List β) :
    ∀ l : List α, (∀ x ∈ l, (f x).length = 1) → (l.flatMap f).length = l.length := by
  intro l
  induction l with
  | nil => simp
  | cons a t ih =>
    intro h
    rw [List.flatMap_cons, List.length_append, h a (List.mem_cons_self a t),
      ih (fun x hx => h x (List.mem_cons_of_mem a hx)), List.length_cons]
    omega

/-- C3: whenever the Merger returns a result, the partner view was first
deduplicated by key (first occurrence kept) and then left-joined, so the
result has exactly as many rows as the origin frame — also when the partner
key column contains duplicates. -/
theorem merger_row_count (a b : DataFrame) (ixa ixb : String) (cc : List String) (r : DataFrame)
    (h : merge_datasets a b ixa ixb cc = .ok r) :
    r.rows.length = a.rows.length := by
  obtain ⟨hmiss, hguard, hr⟩ := merge_ok_shape h
  subst hr
  apply length_flatMap_of_one
  intro ra hra
  apply joinRow_length_one
  obtain ⟨hlo, hro, hnda, hndb, hover⟩ := hguard
  have hixbb : ixb ∈ b.cols := by
    have := List.filter_eq_nil_iff.mp hmiss ixb (by simp)
    simpa using this
  have hixb1 : ixb ∈ (selectColumns b (cc ++ [ixb])).cols := by
    show ixb ∈ b.cols.filter (fun c => c ∈ cc ++ [ixb])
    rw [List.mem_filter]
    exact ⟨hixbb, by simp⟩
  rw [reducedPartner_rows]
  have hcell : ∀ rrow : List Value,
      cellAt (reducedPartner b ixb cc a.cols).cols rrow ixb =
        cellAt (selectColumns b (cc ++ [ixb])).cols rrow ixb :=
    cellAt_reducedPartner_key b ixb cc a.cols hndb hro hixb1
  rw [List.map_congr_left (fun rrow _ => hcell rrow)]
  exact (dedupFirstBy_spec (selectColumns b (cc ++ [ixb])).cols ixb
    (selectColumns b (cc ++ [ixb])).rows []).2

/-- Witness for C3: the partner has two rows with key 2; the merge keeps one
per key and the result row count equals the origin row count (2). -/
theorem merger_row_count_witness :
    (DataFrame.mk ["k", "v"]
      [[Value.num 1, Value.null], [Value.num 2, Value.str "X"]]).rows.length =
      (DataFrame.mk ["k"] [[Value.num 1], [Value.num 2]]).rows.length :=
  merger_row_count (DataFrame.mk ["k"] [[Value.num 1], [Value.num 2]])
    (DataFrame.mk ["k", "v"] [[Value.num 2, Value.str "X"], [Value.num 2, Value.str "Z"]])
    "k" "k" ["v"]
    (DataFrame.mk ["k", "v"] [[Value.num 1, Value.null], [Value.num 2, Value.str "X"]])
    (by decide)

end Excelinator

namespace Excelinator

/-- C6 (amended): the columns of a successful merge are the origin columns in
their order, followed by the reduced partner view's columns in partner order —
each copy column renamed through the Column Namer against the origin column
snapshot, the partner key kept as it is; the partner key column is removed
from the appended part only when the two key names coincide (pandas emits a
shared join key once); with distinct key names it stays in the output. -/
theorem merger_schema (a b : DataFrame) (ixa ixb : String) (cc : List String) (r : DataFrame)
    (h : merge_datasets a b ixa ixb cc = .ok r) :
    r.cols = a.cols ++
      (if ixa = ixb then
        (renameColumns (b.cols.filter (fun c => c ∈ cc ++ [ixb])) cc a.cols).erase ixb
      else renameColumns (b.cols.filter (fun c => c ∈ cc ++ [ixb])) cc a.cols) := by
  obtain ⟨hmiss, hguard, hr⟩ := merge_ok_shape h
  subst hr
  rfl

/-- Counterexample to C6 as stated: with distinct key names (`ka` vs `kb`) the
partner key column `kb` appears in the output schema — it is never dropped
after the join. -/
theorem merger_schema_counterexample :
    merge_datasets (DataFrame.mk ["ka"] [[Value.num 1]])
      (DataFrame.mk ["kb", "v"] [[Value.num 1, Value.str "X"]]) "ka" "kb" ["v"] =
      .ok (DataFrame.mk ["ka", "kb", "v"] [[Value.num 1, Value.num 1, Value.str "X"]]) ∧
    "kb" ∈ (DataFrame.mk ["ka", "kb", "v"]
      [[Value.num 1, Value.num 1, Value.str "X"]]).cols :=
  ⟨by decide, by decide⟩

/-- Witness for the amended C6 at the counterexample input. -/
theorem merger_schema_witness :
    (DataFrame.mk ["ka", "kb", "v"] [[Value.num 1, Value.num 1, Value.str "X"]]).cols =
      (DataFrame.mk ["ka"] [[Value.num 1]]).cols ++
      (if "ka" = "kb" then
        (renameColumns ((DataFrame.mk ["kb", "v"] [[Value.num 1, Value.str "X"]]).cols.filter
          (fun c => c ∈ ["v"] ++ ["kb"])) ["v"] (DataFrame.mk ["ka"] [[Value.num 1]]).cols).erase
          "kb"
      else renameColumns ((DataFrame.mk ["kb", "v"] [[Value.num 1, Value.str "X"]]).cols.filter
        (fun c => c ∈ ["v"] ++ ["kb"])) ["v"] (DataFrame.mk ["ka"] [[Value.num 1]]).cols) :=
  merger_schema (DataFrame.mk ["ka"] [[Value.num 1]])
    (DataFrame.mk ["kb", "v"] [[Value.num 1, Value.str "X"]]) "ka" "kb" ["v"]
    (DataFrame.mk ["ka", "kb", "v"] [[Value.num 1, Value.num 1, Value.str "X"]])
    (by decide)

/-- C8: the Merger fails with the configuration error naming exactly the
missing needed columns (all of them) whenever one of `copy_columns` plus the
partner key is absent from the partner column list; the failure depends only
on the partner column list — not on any partner rows, so no projection,
deduplication, renaming or join work is involved — and when every needed
column is present this error is never raised. -/
theorem merger_missing_columns (a b : DataFrame) (ixa ixb : String) (cc : List String) :
    ((cc ++ [ixb]).filter (fun c => c ∉ b.cols) ≠ [] →
      (∀ rows2 : List (List Value),
        merge_datasets a { cols := b.cols, rows := rows2 } ixa ixb cc =
          .error (.missingPartnerColumns ((cc ++ [ixb]).filter (fun c => c ∉ b.cols)))) ∧
      ∀ c ∈ cc ++ [ixb], c ∉ b.cols → c ∈ (cc ++ [ixb]).filter (fun c => c ∉ b.cols)) ∧
    ((cc ++ [ixb]).filter (fun c => c ∉ b.cols) = [] →
      ∀ errs, merge_datasets a b ixa ixb cc ≠ .error (.missingPartnerColumns errs)) := by
  constructor
  · intro hne
    constructor
    · intro rows2
      simp only [merge_datasets]
      rw [if_neg hne]
    · intro c hc hnc
      rw [List.mem_filter]
      exact ⟨hc, by simpa using hnc⟩
  · intro hok errs hcontra
    simp only [merge_datasets] at hcontra
    rw [if_pos hok] at hcontra
    unfold pdMergeLeft at hcontra
    by_cases hg : mergeGuard a.cols (reducedPartner b ixb cc a.cols) ixa ixb
    · rw [if_pos hg] at hcontra
      exact Except.noConfusion hcontra
    · rw [if_neg hg] at hcontra
      injection hcontra with hcontra
      exact AppError.noConfusion hcontra

/-- Witness for C8: both missing copy columns `x` and `y` are named in the
error, not just the first. -/
theorem merger_missing_columns_witness :
    merge_datasets (DataFrame.mk ["j"] []) (DataFrame.mk ["k"] []) "j" "k" ["x", "y"] =
      .error (.missingPartnerColumns ["x", "y"]) :=
  ((merger_missing_columns (DataFrame.mk ["j"] []) (DataFrame.mk ["k"] []) "j" "k"
    ["x", "y"]).1 (by decide)).1 []

/-- C5 is false on the code (a slip against the stated purpose of
`avoid_similar_columns`): each copy column is renamed against the stale
origin-column snapshot `list(dataset_a.columns)`, never against the names
already produced, so `copy_columns = [a, a_2]` with origin columns `[k, a]`
resolves both partner columns to `a_2`.  The resulting duplicate labels make
the subsequent merge abort (pandas raises on them) instead of yielding
pairwise distinct column names. -/
theorem stale_snapshot_rename_collision :
    renameColumns ["k", "a", "a_2"] ["a", "a_2"] ["k", "a"] = ["k", "a_2", "a_2"] ∧
    ¬ (renameColumns ["k", "a", "a_2"] ["a", "a_2"] ["k", "a"]).Nodup ∧
    merge_datasets (DataFrame.mk ["k", "a"] [[Value.num 1, Value.str "p"]])
      (DataFrame.mk ["k", "a", "a_2"] [[Value.num 1, Value.str "q", Value.str "r"]])
      "k" "k" ["a", "a_2"] = .error .unsupportedMerge :=
  ⟨by decide, by decide, by decide⟩

/-- C4 is false on the code: `main` selects the chunked branch from the size
threshold alone (`if ORIGIN_LAZY_LOAD:`), so an xlsx origin of threshold size
enters the chunked loop even though its reader kwargs carry no `chunksize`
(`pd.read_excel` returns a whole DataFrame, and iterating it yields its column
labels, not chunks); a csv of that size is read with `chunksize = 100000`, and
below the threshold the whole-dataset branch runs. -/
theorem chunk_mode_selected_by_size_only :
    usesChunkedBranch 14680064 = true ∧
    (get_read_kwargs "xlsx" (origin_lazy_load 14680064)).chunksize = none ∧
    (get_read_kwargs "csv" (origin_lazy_load 14680064)).chunksize = some 100000 ∧
    usesChunkedBranch 14680063 = false :=
  ⟨by decide, by decide, by decide, by decide⟩

/-- C10: `merge_datasets` appends the partner key only to a copy of
`copy_columns`, so the caller's list is unchanged by a call, the chunked
loop's shared list is unchanged after any number of iterations, and a merge
invoked on the list after a call behaves exactly as on the original list. -/
theorem merger_copy_columns_frame (cc : List String) (ixb : String) (n : Nat) :
    (merge_copy_columns_state cc ixb).1 = cc ∧
    (merge_copy_columns_state cc ixb).2 = cc ++ [ixb] ∧
    chunk_loop_copy_columns ixb n cc = cc ∧
    ∀ (a b : DataFrame) (ixa : String),
      merge_datasets a b ixa ixb ((merge_copy_columns_state cc ixb).1) =
        merge_datasets a b ixa ixb cc := by
  refine ⟨rfl, rfl, ?_, fun a b ixa => rfl⟩
  induction n with
  | zero => rfl
  | succ k ih => exact ih

end Excelinator

namespace Excelinator

/-! ## The per-chunk body as a flat-map over rows -/

theorem map_eq_flatMap_singleton {α β : Type} (f : α → β) :
    ∀ l : List α, l.map f = l.flatMap (fun x => [f x]) := by
  intro l
  induction l with
  | nil => rfl
  | cons a t ih =>
    rw [List.map_cons, List.flatMap_cons, ih]
    rfl

theorem filter_map_eq_flatMap {α β : Type} (f : α → β) (p : β → Bool) :
    ∀ l : List α,
      (l.map f).filter p = l.flatMap (fun x => if p (f x) = true then [f x] else []) := by
  intro l
  induction l with
  | nil => rfl
  | cons a t ih =>
    rw [List.map_cons, List.flatMap_cons, ← ih]
    by_cases hp : p (f a) = true
    · rw [List.filter_cons_of_pos hp, if_pos hp]
      rfl
    · rw [List.filter_cons_of_neg (by simpa using hp), if_neg hp]
      rfl

theorem flatMap_congr {α β : Type} {f g : α → List β} :
    ∀ {l : List α}, (∀ x ∈ l, f x = g x) → l.flatMap f = l.flatMap g := by
  intro l
  induction l with
  | nil => intro _; rfl
  | cons a t ih =>
    intro h
    rw [List.flatMap_cons, List.flatMap_cons, h a (List.mem_cons_self a t),
      ih (fun x hx => h x (List.mem_cons_of_mem a hx))]

theorem flatten_flatMap {α β : Type} (f : α → List β) :
    ∀ L : List (List α), L.flatten.flatMap f = L.flatMap (fun l => l.flatMap f) := by
  intro L
  induction L with
  | nil => rfl
  | cons l L ih =>
    rw [List.flatten_cons, List.flatMap_append, ih, List.flatMap_cons]

theorem merge_datasets_eq_ok (a b : DataFrame) (ixa ixb : String) (cc : List String)
    (hmiss : (cc ++ [ixb]).filter (fun c => c ∉ b.cols) = [])
    (hguard : mergeGuard a.cols (reducedPartner b ixb cc a.cols) ixa ixb) :
    merge_datasets a b ixa ixb cc = .ok
      { cols := a.cols ++ (if ixa = ixb then (reducedPartner b ixb cc a.cols).cols.erase ixb
                           else (reducedPartner b ixb cc a.cols).cols),
        rows := a.rows.flatMap (joinRow a.cols (reducedPartner b ixb cc a.cols) ixa ixb
          (if ixa = ixb then (reducedPartner b ixb cc a.cols).cols.erase ixb
           else (reducedPartner b ixb cc a.cols).cols)) } := by
  simp only [merge_datasets, pdMergeLeft]
  rw [if_pos hmiss, if_pos hguard]

theorem processOnce_eq (cfg : Config) (partner : DataFrame) (C : List String)
    (rs : List (List Value)) (hok : processOk cfg partner C) :
    processOnce cfg partner ⟨C, rs⟩ = .ok
      { cols := processedCols cfg partner C,
        rows := rs.flatMap (processRow cfg partner C) } := by
  obtain ⟨h1, h2, h3⟩ := hok
  have hmark := mark_matches_eq ⟨C, rs⟩ partner cfg.origin_index cfg.partner_index
    cfg.results_column cfg.match_marker cfg.missmatch_marker cfg.delete_missmatches h1 h2
  dsimp only at hmark
  by_cases hcc : cfg.copy_columns = []
  · simp only [processOnce, hmark, if_pos hcc]
    congr 1
    congr 1
    · unfold processedCols
      rw [if_pos hcc]
    · by_cases hd : cfg.delete_missmatches = true
      · rw [if_pos hd, filter_map_eq_flatMap]
        apply flatMap_congr
        intro r hr
        simp only [processRow, if_pos hcc, if_pos hd, decide_eq_true_eq]
      · rw [if_neg hd, map_eq_flatMap_singleton]
        apply flatMap_congr
        intro r hr
        simp only [processRow, if_pos hcc, if_neg hd]
  · have hmg := h3 hcc
    have hmerge := merge_datasets_eq_ok
      { cols := markedCols C cfg.results_column,
        rows :=
          if cfg.delete_missmatches then
            (rs.map (markRow C cfg.origin_index cfg.results_column
              (getColumn partner cfg.partner_index) cfg.match_marker cfg.missmatch_marker)).filter
              (fun r => decide (cellAt (markedCols C cfg.results_column) r
                cfg.results_column = cfg.match_marker))
          else rs.map (markRow C cfg.origin_index cfg.results_column
            (getColumn partner cfg.partner_index) cfg.match_marker cfg.missmatch_marker) }
      partner cfg.origin_index cfg.partner_index cfg.copy_columns hmg.1 hmg.2
    simp only [processOnce, hmark, if_neg hcc, hmerge]
    congr 1
    congr 1
    · unfold processedCols mergedRightCols
      rw [if_neg hcc]
    · by_cases hd : cfg.delete_missmatches = true
      · rw [if_pos hd, filter_map_eq_flatMap, List.flatMap_assoc]
        apply flatMap_congr
        intro r hr
        simp only [processRow, mergedRightCols, if_neg hcc, if_pos hd, decide_eq_true_eq]
      · rw [if_neg hd, map_eq_flatMap_singleton, List.flatMap_assoc]
        apply flatMap_congr
        intro r hr
        simp only [processRow, mergedRightCols, if_neg hcc, if_neg hd]

theorem processOnce_ok_inv {cfg : Config} {partner df w : DataFrame}
    (h : processOnce cfg partner df = .ok w) :
    processOk cfg partner df.cols := by
  unfold processOnce at h
  rcases hm : mark_matches df partner cfg.origin_index cfg.partner_index
      cfg.results_column cfg.match_marker cfg.missmatch_marker cfg.delete_missmatches
    with e | marked
  · rw [hm] at h
    exact Except.noConfusion h
  · obtain ⟨ha, hb⟩ := mark_matches_ok_mem hm
    refine ⟨ha, hb, ?_⟩
    intro hcc
    rw [hm] at h
    dsimp only at h
    rw [if_neg hcc] at h
    have hmeq := (mark_matches_eq df partner cfg.origin_index cfg.partner_index
      cfg.results_column cfg.match_marker cfg.missmatch_marker cfg.delete_missmatches
      ha hb).symm.trans hm
    injection hmeq with hmeq
    rw [← hmeq] at h
    have hshape := merge_ok_shape h
    exact ⟨hshape.1, hshape.2.1⟩

end Excelinator

namespace Excelinator

theorem joinRow_mem_length (acols : List String) (b : DataFrame) (lo ro : String)
    (rightCols : List String) (ra : List Value) (hra : ra.length = acols.length) :
    ∀ out ∈ joinRow acols b lo ro rightCols ra,
      out.length = acols.length + rightCols.length := by
  intro out hout
  unfold joinRow at hout
  rcases hfil : b.rows.filter (fun rb => decide (cellAt b.cols rb ro = cellAt acols ra lo))
    with _ | ⟨m, mt⟩ <;> rw [hfil] at hout <;> dsimp only at hout
  · rw [List.mem_singleton] at hout
    subst hout
    rw [List.length_append, List.length_map, hra]
  · rcases List.mem_map.mp hout with ⟨rb, hrb, rfl⟩
    rw [List.length_append, List.length_map, hra]

theorem processRow_length (cfg : Config) (partner : DataFrame) (C : List String)
    (r : List Value) (hr : r.length = C.length) :
    ∀ out ∈ processRow cfg partner C r, out.length = (processedCols cfg partner C).length := by
  intro out hout
  simp only [processRow] at hout
  have hmlen : (markRow C cfg.origin_index cfg.results_column
      (getColumn partner cfg.partner_index) cfg.match_marker cfg.missmatch_marker r).length =
      (markedCols C cfg.results_column).length :=
    markRow_length C cfg.origin_index cfg.results_column _ _ _ r hr
  have hkept : ∀ x ∈ (if cfg.delete_missmatches then
      (if cellAt (markedCols C cfg.results_column)
          (markRow C cfg.origin_index cfg.results_column
            (getColumn partner cfg.partner_index) cfg.match_marker cfg.missmatch_marker r)
          cfg.results_column = cfg.match_marker
        then [markRow C cfg.origin_index cfg.results_column
          (getColumn partner cfg.partner_index) cfg.match_marker cfg.missmatch_marker r] else [])
      else [markRow C cfg.origin_index cfg.results_column
        (getColumn partner cfg.partner_index) cfg.match_marker cfg.missmatch_marker r]),
      x = markRow C cfg.origin_index cfg.results_column
        (getColumn partner cfg.partner_index) cfg.match_marker cfg.missmatch_marker r := by
    intro x hx
    by_cases hd : cfg.delete_missmatches = true
    · rw [if_pos hd] at hx
      by_cases hc : cellAt (markedCols C cfg.results_column)
          (markRow C cfg.origin_index cfg.results_column
            (getColumn partner cfg.partner_index) cfg.match_marker cfg.missmatch_marker r)
          cfg.results_column = cfg.match_marker
      · rw [if_pos hc] at hx
        exact List.mem_singleton.mp hx
      · rw [if_neg hc] at hx
        exact absurd hx (List.not_mem_nil x)
    · rw [if_neg hd] at hx
      exact List.mem_singleton.mp hx
  by_cases hcc : cfg.copy_columns = []
  · rw [if_pos hcc] at hout
    have hx := hkept out hout
    subst hx
    unfold processedCols
    rw [if_pos hcc]
    exact hmlen
  · rw [if_neg hcc] at hout
    rcases List.mem_flatMap.mp hout with ⟨x, hx, hjoin⟩
    have hxm := hkept x hx
    subst hxm
    have hlen := joinRow_mem_length (markedCols C cfg.results_column)
      (reducedPartner partner cfg.partner_index cfg.copy_columns (markedCols C cfg.results_column))
      cfg.origin_index cfg.partner_index
      (mergedRightCols cfg partner (markedCols C cfg.results_column)) _ hmlen out hjoin
    rw [hlen]
    unfold processedCols
    rw [if_neg hcc, List.length_append]

theorem markedCols_nodup (C : List String) (resc : String) (hnd : C.Nodup) :
    (markedCols C resc).Nodup := by
  unfold markedCols
  by_cases hc : resc ∈ C
  · rw [if_pos hc]
    exact hnd
  · rw [if_neg hc]
    apply List.Nodup.append hnd (by simp)
    intro x hx hxr
    rw [List.mem_singleton] at hxr
    subst hxr
    exact hc hx

theorem processedCols_nodup (cfg : Config) (partner : DataFrame) (C : List String)
    (hok : processOk cfg partner C) (hnd : C.Nodup) :
    (processedCols cfg partner C).Nodup := by
  unfold processedCols
  by_cases hcc : cfg.copy_columns = []
  · rw [if_pos hcc]
    exact markedCols_nodup C cfg.results_column hnd
  · rw [if_neg hcc]
    obtain ⟨hmiss, hguard⟩ := hok.2.2 hcc
    obtain ⟨hlo, hro, hnda, hndb, hover⟩ := hguard
    apply List.Nodup.append hnda
    · unfold mergedRightCols
      by_cases hxy : cfg.origin_index = cfg.partner_index
      · rw [if_pos hxy]
        exact hndb.erase _
      · rw [if_neg hxy]
        exact hndb
    · intro x hx hxr
      unfold mergedRightCols at hxr
      by_cases hxy : cfg.origin_index = cfg.partner_index
      · rw [if_pos hxy] at hxr
        have hx2 := (hndb.mem_erase_iff).mp hxr
        exact hx2.1 (hover x hx2.2 hx).2
      · rw [if_neg hxy] at hxr
        exact hxy (hover x hxr hx).1

theorem map_cellAt_self (C : List String) (r : List Value) (hnd : C.Nodup)
    (hr : r.length = C.length) :
    C.map (fun c => cellAt C r c) = r := by
  apply List.ext_getElem
  · rw [List.length_map]
    omega
  · intro i h1 h2
    rw [List.getElem_map]
    unfold cellAt
    have hm : C[i] ∈ C := List.getElem_mem (by rw [List.length_map] at h1; exact h1)
    have hlt : List.indexOf (C[i]) C < C.length := List.indexOf_lt_length.mpr hm
    have hii : List.indexOf (C[i]) C = i := (hnd.getElem_inj_iff).mp (List.getElem_indexOf hlt)
    rw [hii, List.getD_eq_getElem _ _ h2]

theorem reproject_rows (P : List String) (rows : List (List Value)) (hnd : P.Nodup)
    (hw : ∀ r ∈ rows, r.length = P.length) :
    rows.map (fun r => P.map (fun c => if c ∈ P then cellAt P r c else Value.null)) = rows := by
  have hself : ∀ r ∈ rows,
      P.map (fun c => if c ∈ P then cellAt P r c else Value.null) = id r := by
    intro r hr
    have h1 : P.map (fun c => if c ∈ P then cellAt P r c else Value.null)
        = P.map (fun c => cellAt P r c) :=
      List.map_congr_left (fun c hc => if_pos hc)
    rw [h1]
    exact map_cellAt_self P r hnd (hw r hr)
  rw [List.map_congr_left hself, List.map_id]

theorem concatFrames_same (P : List String) (xs ys : List (List Value)) (hnd : P.Nodup)
    (hx : ∀ r ∈ xs, r.length = P.length) (hy : ∀ r ∈ ys, r.length = P.length) :
    concatFrames ⟨P, xs⟩ ⟨P, ys⟩ = ⟨P, xs ++ ys⟩ := by
  have hfil : P.filter (fun c => c ∉ P) = [] := by
    rw [List.filter_eq_nil_iff]
    intro a ha
    simp [ha]
  simp only [concatFrames]
  rw [hfil, List.append_nil]
  rw [reproject_rows P xs hnd hx, reproject_rows P ys hnd hy]

theorem concatFrames_empty (df : DataFrame) (hnd : df.cols.Nodup) (hwf : df.Wf) :
    concatFrames emptyFrame df = df := by
  obtain ⟨P, rows⟩ := df
  simp only [concatFrames, emptyFrame, List.map_nil, List.nil_append]
  have hfil : P.filter (fun c => (c ∉ ([] : List String))) = P := by
    rw [List.filter_eq_self]
    intro a ha
    simp
  rw [hfil]
  rw [reproject_rows P rows hnd hwf]

theorem chunkedRunAux_eq (cfg : Config) (partner : DataFrame) (C : List String)
    (hok : processOk cfg partner C) (hnd : (processedCols cfg partner C).Nodup) :
    ∀ (chunks : List DataFrame) (accRows : List (List Value)),
      (∀ ch ∈ chunks, ch.cols = C ∧ ch.Wf) →
      (∀ r ∈ accRows, r.length = (processedCols cfg partner C).length) →
      chunkedRunAux cfg partner ⟨processedCols cfg partner C, accRows⟩ chunks =
        .ok ⟨processedCols cfg partner C,
          accRows ++ chunks.flatMap (fun ch => ch.rows.flatMap (processRow cfg partner C))⟩ := by
  intro chunks
  induction chunks with
  | nil =>
    intro accRows hch hacc
    simp [chunkedRunAux]
  | cons ch rest ih =>
    intro accRows hch hacc
    obtain ⟨hcols, hwf⟩ := hch ch (List.mem_cons_self ch rest)
    obtain ⟨chC, chR⟩ := ch
    have hc0C : chC = C := hcols
    subst hc0C
    have hpo := processOnce_eq cfg partner chC chR hok
    simp only [chunkedRunAux, hpo]
    have hnewlen : ∀ r ∈ chR.flatMap (processRow cfg partner chC),
        r.length = (processedCols cfg partner chC).length := by
      intro r hr
      rcases List.mem_flatMap.mp hr with ⟨x, hx, hpx⟩
      exact processRow_length cfg partner chC x (hwf x hx) r hpx
    rw [concatFrames_same (processedCols cfg partner chC) accRows
      (chR.flatMap (processRow cfg partner chC)) hnd hacc hnewlen]
    have haccnew : ∀ r ∈ accRows ++ chR.flatMap (processRow cfg partner chC),
        r.length = (processedCols cfg partner chC).length := by
      intro r hr
      rcases List.mem_append.mp hr with h | h
      · exact hacc r h
      · exact hnewlen r h
    rw [ih (accRows ++ chR.flatMap (processRow cfg partner chC))
      (fun c hc => hch c (List.mem_cons_of_mem _ hc)) haccnew]
    rw [List.flatMap_cons, ← List.append_assoc]

/-- C1: chunked mode is equivalent to whole-dataset mode.  For every
configuration, partner frame and well-formed origin frame with unique column
labels, and for every way of splitting the origin rows into consecutive
chunks in their original order, running the per-chunk body (Matcher, then the
Merger when `copy_columns` is non-empty) on each chunk and appending the
results in arrival order yields exactly the frame — same rows, same values,
same row order, same columns — that whole-dataset mode produces on the
unsplit origin. -/
theorem chunked_mode_matches_whole_mode (cfg : Config) (partner origin : DataFrame)
    (chunks : List DataFrame) (w : DataFrame)
    (hne : chunks ≠ [])
    (hcols : ∀ ch ∈ chunks, ch.cols = origin.cols)
    (hrows : (chunks.map DataFrame.rows).flatten = origin.rows)
    (hwf : origin.Wf)
    (hnd : origin.cols.Nodup)
    (hok : processOnce cfg partner origin = .ok w) :
    chunkedRun cfg partner chunks = .ok w := by
  have hpok : processOk cfg partner origin.cols := processOnce_ok_inv hok
  have hndP : (processedCols cfg partner origin.cols).Nodup :=
    processedCols_nodup cfg partner origin.cols hpok hnd
  have hweq : w = ⟨processedCols cfg partner origin.cols,
      origin.rows.flatMap (processRow cfg partner origin.cols)⟩ := by
    have h2 := (processOnce_eq cfg partner origin.cols origin.rows hpok).symm.trans hok
    injection h2 with h2
    exact h2.symm
  have hchwf : ∀ ch ∈ chunks, ch.cols = origin.cols ∧ ch.Wf := by
    intro ch hch
    refine ⟨hcols ch hch, ?_⟩
    intro r hr
    have hmem : r ∈ origin.rows := by
      rw [← hrows, List.mem_flatten]
      exact ⟨ch.rows, List.mem_map_of_mem _ hch, hr⟩
    rw [hcols ch hch]
    exact hwf r hmem
  cases chunks with
  | nil => exact absurd rfl hne
  | cons c0 rest =>
    obtain ⟨hc0cols, hc0wf⟩ := hchwf c0 (List.mem_cons_self c0 rest)
    obtain ⟨c0C, c0R⟩ := c0
    have hc0C : c0C = origin.cols := hc0cols
    subst hc0C
    have hp0 := processOnce_eq cfg partner origin.cols c0R hpok
    unfold chunkedRun
    simp only [chunkedRunAux, hp0]
    have hfr0wf : ∀ r ∈ c0R.flatMap (processRow cfg partner origin.cols),
        r.length = (processedCols cfg partner origin.cols).length := by
      intro r hr
      rcases List.mem_flatMap.mp hr with ⟨x, hx, hpx⟩
      exact processRow_length cfg partner origin.cols x (hc0wf x hx) r hpx
    rw [concatFrames_empty ⟨processedCols cfg partner origin.cols,
      c0R.flatMap (processRow cfg partner origin.cols)⟩ hndP hfr0wf]
    rw [chunkedRunAux_eq cfg partner origin.cols hpok hndP rest
      (c0R.flatMap (processRow cfg partner origin.cols))
      (fun c hc => hchwf c (List.mem_cons_of_mem _ hc)) hfr0wf]
    rw [hweq]
    have horows : origin.rows = c0R ++ (rest.map DataFrame.rows).flatten := by
      rw [← hrows]
      rfl
    rw [horows, List.flatMap_append, flatten_flatMap, List.flatMap_map]

/-- Witness for C1: two single-row chunks of a two-row origin, with a copy
column, give exactly the whole-dataset result. -/
theorem chunked_mode_matches_whole_mode_witness :
    chunkedRun
      { origin_index := "k", partner_index := "k", results_column := "R",
        match_marker := Value.str "Y", missmatch_marker := Value.str "N",
        copy_columns := ["v"], delete_missmatches := false }
      (DataFrame.mk ["k", "v"] [[Value.num 2, Value.str "X"]])
      [DataFrame.mk ["k"] [[Value.num 1]], DataFrame.mk ["k"] [[Value.num 2]]] =
      .ok (DataFrame.mk ["k", "R", "v"]
        [[Value.num 1, Value.str "N", Value.null],
          [Value.num 2, Value.str "Y", Value.str "X"]]) :=
  chunked_mode_matches_whole_mode _ _ (DataFrame.mk ["k"] [[Value.num 1], [Value.num 2]]) _ _
    (by decide) (by decide) (by decide) (by decide) (by decide) (by decide)

end Excelinator
